import Mathlib

/-!
# Outbox Relay verification

Shallow embedding of the outbox-relay core of this repository:

* the file-based outbox store of
  `Module-14/Lesson-14-2-Outbox-Store/src/main.rs` (`FileOutboxStore`),
* the retry loop of
  `Module-14/Lesson-14-4-Retry-Logic-with-Exponential-Backoff/main.rs`
  (`retry_with_exponential_backoff`),
* and, where the repository has no implementation (permanent-failure routing,
  the shutdown coordinator over deliveries), models built from the spec.

The persisted outbox file is modelled as a `List String`: one element per
line of the file, newline terminators dropped, exactly as the Rust
`BufRead::lines` reader presents them to `read_all_events`.
-/

/-- The `Event` struct of Lesson 14-2: `id: String`, `payload: String`,
`processed: bool`.  (The store of the lesson has no three-state status enum;
`processed = false` is the Pending state, `processed = true` is Processed.) -/
structure Event where
  id : String
  payload : String
  processed : Bool
  deriving DecidableEq, Repr

/-- Split off everything before the first occurrence of `sep`: returns
`some (before, after)` when `sep` occurs, `none` otherwise.  Helper for
`splitnChars`. -/
def splitFirst (sep : Char) : List Char → Option (List Char × List Char)
  | [] => none
  | c :: rest =>
    if c = sep then some ([], rest)
    else
      match splitFirst sep rest with
      | none => none
      | some (a, b) => some (c :: a, b)

/-- The Rust `str::splitn(n, sep)` operation on character lists: at most `n` parts, the
last part keeping any remaining separators. -/
def splitnChars : Nat → Char → List Char → List (List Char)
  | 0, _, _ => []
  | 1, _, cs => [cs]
  | n + 2, sep, cs =>
    match splitFirst sep cs with
    | none => [cs]
    | some (a, b) => a :: splitnChars (n + 1) sep b

/-- The Rust `line.splitn(3, '|')` call from `FileOutboxStore::read_all_events`. -/
def splitnThree (s : String) : List String :=
  (splitnChars 3 '|' s.data).map String.mk

/-- The Rust `parts[2].parse::<bool>().unwrap_or(false)` step: the `bool` parser accepts
exactly "true" and "false"; every other token falls back to `false`. -/
def parseBoolOrFalse (s : String) : Bool :=
  if s = "true" then true else false

/-- The per-line parsing step of `FileOutboxStore::read_all_events`
(lines 57-66): a line is kept iff `splitn(3, '|')` yields exactly three
parts; the third part is parsed with `unwrap_or(false)`. -/
def parseLine (line : String) : Option Event :=
  match splitnThree line with
  | [i, p, st] => some (Event.mk i p (parseBoolOrFalse st))
  | _ => none

/-- The scan `FileOutboxStore::read_all_events`: scan all lines, keeping the ones that
parse and silently skipping the rest. -/
def read_all_events (file : List String) : List Event :=
  file.filterMap parseLine

/-- The record format written by `FileOutboxStore::write_all_events`:
the record text `id|payload|processed` followed by a newline. -/
def serializeEvent (e : Event) : String :=
  e.id ++ "|" ++ e.payload ++ "|" ++ (if e.processed then "true" else "false")

/-- Drop one trailing carriage return, as the line reader does to each
segment it yields (a CRLF line ending presents the line without the CR). -/
def stripTrailingCR (cs : List Char) : List Char :=
  if cs.getLast? = some '\r' then cs.dropLast else cs

/-- Split a character sequence at every newline, `acc` holding the current
segment reversed.  A text with n newlines yields n+1 segments. -/
def splitLinesChars : List Char → List Char → List (List Char)
  | acc, [] => [acc.reverse]
  | acc, c :: rest =>
    if c = '\n' then acc.reverse :: splitLinesChars [] rest
    else splitLinesChars (c :: acc) rest

/-- The lines that one written record contributes to the file as the line
reader later presents them: the record text `s` is written followed by a
terminating newline, so the reader splits `s` at each embedded newline
(the terminator closes the last segment and yields no segment of its own)
and strips a trailing CR from each segment.  A record free of newlines
contributes exactly one line; a record with an embedded newline spans
several lines. -/
def recordLines (s : String) : List String :=
  (splitLinesChars [] s.data).map (fun cs => String.mk (stripTrailingCR cs))

/-- The rewrite `FileOutboxStore::write_all_events`: truncate and rewrite the
whole file, writing the `format!` text of each record followed by a newline.
Since every record is newline-terminated, the lines of the resulting file
are the concatenation of the `recordLines` of each record. -/
def write_all_events (events : List Event) : List String :=
  events.flatMap (fun e => recordLines (serializeEvent e))

/-- The append `FileOutboxStore::save_event`: read-all, push, write-all. -/
def save_event (file : List String) (e : Event) : List String :=
  write_all_events (read_all_events file ++ [e])

/-- The listing `FileOutboxStore::get_unprocessed_events`: the parsed events with
`processed == false`, in file order. -/
def get_unprocessed_events (file : List String) : List Event :=
  (read_all_events file).filter (fun e => !e.processed)

/-- The mutation loop of `FileOutboxStore::mark_event_processed`: set
`processed = true` on the FIRST event whose id matches, then `break`;
if no id matches the loop falls through and nothing changes. -/
def markFirstProcessed : List Event → String → List Event
  | [], _ => []
  | e :: rest, eventId =>
    if e.id = eventId then { e with processed := true } :: rest
    else e :: markFirstProcessed rest eventId

/-- The mutation `FileOutboxStore::mark_event_processed`: read-all, mark first match (if
any), write-all.  Note the Rust function returns `Ok(())` whether or not the
id was found — there is no `NotFound` error path. -/
def mark_event_processed (file : List String) (eventId : String) : List String :=
  write_all_events (markFirstProcessed (read_all_events file) eventId)

/-- An event is clean when neither its id nor its payload contains the field
delimiter.  (Events parsed from a file are always clean; only clean events
survive a serialize/parse round trip intact.) -/
def cleanEvent (e : Event) : Bool :=
  !(e.id.data.contains '|') && !(e.payload.data.contains '|')

/-- An event is storable when it is clean and neither field contains a
newline: exactly then its written record occupies one file line and the
store round-trips it.  (An event with an embedded newline is written as a
record spanning several lines, none of which has three fields.) -/
def storableEvent (e : Event) : Bool :=
  cleanEvent e && !(e.id.data.contains '\n') && !(e.payload.data.contains '\n')

/-- A file (as a list of lines) is well formed when no line contains a
newline.  Every file actually produced by the line reader is well formed:
the reader splits at newlines, so its lines cannot contain one. -/
def wellFormedFile (file : List String) : Prop :=
  ∀ l ∈ file, '\n' ∉ l.data

-- ### Round-trip lemmas

theorem splitFirst_append_sep (sep : Char) (a b : List Char) (ha : sep ∉ a) :
    splitFirst sep (a ++ sep :: b) = some (a, b) := by
  induction a with
  | nil => simp [splitFirst]
  | cons c rest ih =>
    have hc : c ≠ sep := by
      intro h
      exact ha (by simp [h])
    have hrest : sep ∉ rest := fun h => ha (List.mem_cons_of_mem _ h)
    simp [splitFirst, hc, ih hrest]

theorem splitFirst_pipe_free (sep : Char) (cs a b : List Char)
    (h : splitFirst sep cs = some (a, b)) : sep ∉ a := by
  induction cs generalizing a b with
  | nil => simp [splitFirst] at h
  | cons c rest ih =>
    by_cases hc : c = sep
    · subst hc
      simp [splitFirst] at h
      rcases h with ⟨ha, _⟩
      rw [ha]
      exact List.not_mem_nil c
    · simp only [splitFirst, if_neg hc] at h
      cases hsp : splitFirst sep rest with
      | none => rw [hsp] at h; simp at h
      | some p =>
        rw [hsp] at h
        simp at h
        rcases h with ⟨ha, hb⟩
        intro hmem
        rw [← ha] at hmem
        rcases List.mem_cons.mp hmem with h1 | h2
        · exact hc h1.symm
        · exact ih p.1 p.2 (by rw [hsp]) h2

theorem data_serializeEvent (e : Event) :
    (serializeEvent e).data =
      e.id.data ++ '|' :: (e.payload.data ++ '|' ::
        (if e.processed then "true" else "false").data) := by
  cases hp : e.processed <;>
    simp [serializeEvent, hp, String.data_append]

/-- Parsing a serialized clean event recovers the event. -/
theorem parseLine_serializeEvent (e : Event) (h : cleanEvent e = true) :
    parseLine (serializeEvent e) = some e := by
  have hid : '|' ∉ e.id.data := by
    simp [cleanEvent] at h
    exact h.1
  have hpay : '|' ∉ e.payload.data := by
    simp [cleanEvent] at h
    exact h.2
  have hsplit : splitnChars 3 '|' (serializeEvent e).data =
      [e.id.data, e.payload.data,
        (if e.processed then "true" else "false").data] := by
    rw [data_serializeEvent]
    simp only [splitnChars, splitFirst_append_sep '|' _ _ hid]
    simp only [splitnChars, splitFirst_append_sep '|' _ _ hpay]
  have hmk : ∀ s : String, String.mk s.data = s := fun s => rfl
  cases hp : e.processed with
  | false =>
    rw [hp] at hsplit
    simp only [parseLine, splitnThree, hsplit, List.map, hmk]
    simp [parseBoolOrFalse, ← hp]
  | true =>
    rw [hp] at hsplit
    simp only [parseLine, splitnThree, hsplit, List.map, hmk]
    simp [parseBoolOrFalse, ← hp]

/-- Every event produced by the line parser is clean: its id and payload are
separator-free pieces of the split. -/
theorem parseLine_clean (line : String) (e : Event)
    (h : parseLine line = some e) : cleanEvent e = true := by
  unfold parseLine splitnThree at h
  cases hsp : splitnChars 3 '|' line.data with
  | nil => rw [hsp] at h; simp at h
  | cons p0 tail0 =>
    cases tail0 with
    | nil => rw [hsp] at h; simp [parseLine] at h
    | cons p1 tail1 =>
      cases tail1 with
      | nil => rw [hsp] at h; simp at h
      | cons p2 tail2 =>
        cases tail2 with
        | cons p3 tail3 => rw [hsp] at h; simp at h
        | nil =>
          rw [hsp] at h
          simp at h
          -- from the shape of splitnChars 3, p0 and p1 come from splitFirst
          have h3 : splitnChars 3 '|' line.data = [p0, p1, p2] := hsp
          simp only [splitnChars] at h3
          cases hs1 : splitFirst '|' line.data with
          | none => rw [hs1] at h3; simp at h3
          | some q =>
            rw [hs1] at h3
            simp only [splitnChars] at h3
            cases hs2 : splitFirst '|' q.2 with
            | none =>
              rw [hs2] at h3
              simp at h3
            | some r =>
              rw [hs2] at h3
              simp at h3
              rcases h3 with ⟨hq1, hr1, _⟩
              have hp0 : '|' ∉ p0 := by
                rw [← hq1]
                exact splitFirst_pipe_free '|' line.data q.1 q.2 hs1
              have hp1 : '|' ∉ p1 := by
                rw [← hr1]
                exact splitFirst_pipe_free '|' q.2 r.1 r.2 hs2
              rw [← h]
              simp [cleanEvent]
              exact ⟨hp0, hp1⟩

theorem read_all_clean (file : List String) :
    ∀ e ∈ read_all_events file, cleanEvent e = true := by
  intro e he
  rcases List.mem_filterMap.mp he with ⟨line, _, hparse⟩
  exact parseLine_clean line e hparse

-- ### Line-structure lemmas

theorem splitFirst_mem (sep : Char) (cs a b : List Char)
    (h : splitFirst sep cs = some (a, b)) :
    (∀ x ∈ a, x ∈ cs) ∧ (∀ x ∈ b, x ∈ cs) := by
  induction cs generalizing a b with
  | nil => simp [splitFirst] at h
  | cons c rest ih =>
    by_cases hc : c = sep
    · subst hc
      simp [splitFirst] at h
      rcases h with ⟨ha, hb⟩
      subst ha
      subst hb
      exact ⟨by simp, fun x hx => List.mem_cons_of_mem c hx⟩
    · simp only [splitFirst, if_neg hc] at h
      cases hsp : splitFirst sep rest with
      | none => rw [hsp] at h; simp at h
      | some p =>
        rw [hsp] at h
        simp at h
        rcases h with ⟨ha, hb⟩
        have hih := ih p.1 p.2 (by rw [hsp])
        constructor
        · intro x hx
          rw [← ha] at hx
          rcases List.mem_cons.mp hx with h1 | h2
          · rw [h1]; exact List.mem_cons_self c rest
          · exact List.mem_cons_of_mem c (hih.1 x h2)
        · intro x hx
          rw [← hb] at hx
          exact List.mem_cons_of_mem c (hih.2 x hx)

/-- The characters of a parsed id and payload all come from the line. -/
theorem parseLine_field_chars (line : String) (e : Event)
    (h : parseLine line = some e) :
    (∀ x ∈ e.id.data, x ∈ line.data) ∧
    (∀ x ∈ e.payload.data, x ∈ line.data) := by
  unfold parseLine splitnThree at h
  cases hsp : splitnChars 3 '|' line.data with
  | nil => rw [hsp] at h; simp at h
  | cons p0 tail0 =>
    cases tail0 with
    | nil => rw [hsp] at h; simp at h
    | cons p1 tail1 =>
      cases tail1 with
      | nil => rw [hsp] at h; simp at h
      | cons p2 tail2 =>
        cases tail2 with
        | cons p3 tail3 => rw [hsp] at h; simp at h
        | nil =>
          rw [hsp] at h
          simp at h
          have h3 : splitnChars 3 '|' line.data = [p0, p1, p2] := hsp
          simp only [splitnChars] at h3
          cases hs1 : splitFirst '|' line.data with
          | none => rw [hs1] at h3; simp at h3
          | some q =>
            rw [hs1] at h3
            simp only [splitnChars] at h3
            cases hs2 : splitFirst '|' q.2 with
            | none => rw [hs2] at h3; simp at h3
            | some r =>
              rw [hs2] at h3
              simp at h3
              rcases h3 with ⟨hq1, hr1, _⟩
              have hmq := splitFirst_mem '|' line.data q.1 q.2 (by rw [hs1])
              have hmr := splitFirst_mem '|' q.2 r.1 r.2 (by rw [hs2])
              rw [← h]
              constructor
              · intro x hx
                have hx0 : x ∈ p0 := hx
                have hx1 : x ∈ q.1 := by rw [hq1]; exact hx0
                exact hmq.1 x hx1
              · intro x hx
                have hx0 : x ∈ p1 := hx
                have hx1 : x ∈ r.1 := by rw [hr1]; exact hx0
                exact hmq.2 x (hmr.1 x hx1)

theorem storable_parts (e : Event) (h : storableEvent e = true) :
    '|' ∉ e.id.data ∧ '|' ∉ e.payload.data ∧
    '\n' ∉ e.id.data ∧ '\n' ∉ e.payload.data := by
  simp [storableEvent, cleanEvent] at h
  tauto

theorem storable_clean (e : Event) (h : storableEvent e = true) :
    cleanEvent e = true := by
  obtain ⟨h1, h2, _, _⟩ := storable_parts e h
  simp [cleanEvent]
  exact ⟨h1, h2⟩

/-- Every event parsed from a well-formed file is storable: its id and
payload inherit the absence of delimiters from the split and the absence of
newlines from the line. -/
theorem read_all_storable (file : List String) (hwf : wellFormedFile file) :
    ∀ e ∈ read_all_events file, storableEvent e = true := by
  intro e he
  rcases List.mem_filterMap.mp he with ⟨line, hline, hparse⟩
  have hclean := parseLine_clean line e hparse
  have hchars := parseLine_field_chars line e hparse
  have hnl : '\n' ∉ line.data := hwf line hline
  simp [cleanEvent] at hclean
  simp [storableEvent, cleanEvent, and_assoc]
  exact ⟨hclean.1, hclean.2,
    fun hmem => hnl (hchars.1 _ hmem),
    fun hmem => hnl (hchars.2 _ hmem)⟩

theorem serialize_no_newline (e : Event)
    (hid : '\n' ∉ e.id.data) (hpay : '\n' ∉ e.payload.data) :
    '\n' ∉ (serializeEvent e).data := by
  rw [data_serializeEvent]
  intro hmem
  rcases List.mem_append.mp hmem with h1 | h2
  · exact hid h1
  · rcases List.mem_cons.mp h2 with h3 | h4
    · exact absurd h3 (by decide)
    · rcases List.mem_append.mp h4 with h5 | h6
      · exact hpay h5
      · rcases List.mem_cons.mp h6 with h7 | h8
        · exact absurd h7 (by decide)
        · revert h8
          cases hp : e.processed <;> simp

theorem splitLines_no_newline (cs : List Char) (h : '\n' ∉ cs) :
    ∀ acc, splitLinesChars acc cs = [acc.reverse ++ cs] := by
  induction cs with
  | nil => intro acc; simp [splitLinesChars]
  | cons c rest ih =>
    intro acc
    have hc : ¬ c = '\n' := fun hx => h (by simp [hx])
    have hrest : '\n' ∉ rest := fun hx => h (List.mem_cons_of_mem _ hx)
    simp only [splitLinesChars, if_neg hc]
    rw [ih hrest (c :: acc)]
    simp

theorem stripCR_append (l : List Char) (c : Char) (hc : ¬ c = '\r') :
    stripTrailingCR (l ++ [c]) = l ++ [c] := by
  unfold stripTrailingCR
  rw [if_neg]
  intro hlast
  rw [List.getLast?_concat] at hlast
  exact hc (Option.some.inj hlast)

/-- A serialized record always ends in the letter e (from "true"/"false"),
so the CR stripping never touches it. -/
theorem stripCR_serialize (e : Event) :
    stripTrailingCR (serializeEvent e).data = (serializeEvent e).data := by
  rw [data_serializeEvent]
  cases hp : e.processed with
  | false =>
    have hform : e.id.data ++ '|' :: (e.payload.data ++ '|' ::
        (if false = true then "true" else "false").data) =
        (e.id.data ++ '|' :: (e.payload.data ++ ['|', 'f', 'a', 'l', 's'])) ++
          ['e'] := by
      simp
    rw [hform, stripCR_append _ 'e' (by decide)]
  | true =>
    have hform : e.id.data ++ '|' :: (e.payload.data ++ '|' ::
        (if true = true then "true" else "false").data) =
        (e.id.data ++ '|' :: (e.payload.data ++ ['|', 't', 'r', 'u'])) ++
          ['e'] := by
      simp
    rw [hform, stripCR_append _ 'e' (by decide)]

/-- The written record of a storable event comes back as exactly one line,
verbatim. -/
theorem recordLines_storable (e : Event) (h : storableEvent e = true) :
    recordLines (serializeEvent e) = [serializeEvent e] := by
  obtain ⟨_, _, hid, hpay⟩ := storable_parts e h
  have hnl := serialize_no_newline e hid hpay
  unfold recordLines
  rw [splitLines_no_newline _ hnl []]
  simp [stripCR_serialize]

theorem write_storable (events : List Event)
    (h : ∀ e ∈ events, storableEvent e = true) :
    write_all_events events = events.map serializeEvent := by
  induction events with
  | nil => rfl
  | cons e rest ih =>
    have he := h e (List.mem_cons_self e rest)
    have hrest : ∀ x ∈ rest, storableEvent x = true :=
      fun x hx => h x (List.mem_cons_of_mem e hx)
    unfold write_all_events
    rw [List.flatMap_cons, recordLines_storable e he]
    unfold write_all_events at ih
    rw [ih hrest]
    rfl

/-- Reading back a file written from storable events recovers them
exactly. -/
theorem read_write_roundtrip (events : List Event)
    (h : ∀ e ∈ events, storableEvent e = true) :
    read_all_events (write_all_events events) = events := by
  rw [write_storable events h]
  induction events with
  | nil => rfl
  | cons e rest ih =>
    have he : cleanEvent e = true :=
      storable_clean e (h e (List.mem_cons_self e rest))
    have hrest : ∀ x ∈ rest, storableEvent x = true :=
      fun x hx => h x (List.mem_cons_of_mem e hx)
    simp only [read_all_events, List.map, List.filterMap]
    rw [parseLine_serializeEvent e he]
    simp only [read_all_events] at ih
    rw [ih hrest]

theorem read_all_append (a b : List String) :
    read_all_events (a ++ b) = read_all_events a ++ read_all_events b :=
  List.filterMap_append a b parseLine

theorem splitLinesChars_no_nl (cs : List Char) :
    ∀ acc, '\n' ∉ acc → ∀ part ∈ splitLinesChars acc cs, '\n' ∉ part := by
  induction cs with
  | nil =>
    intro acc hacc part hp
    simp [splitLinesChars] at hp
    rw [hp]
    simpa using hacc
  | cons c rest ih =>
    intro acc hacc part hp
    by_cases hc : c = '\n'
    · simp only [splitLinesChars, if_pos hc] at hp
      rcases List.mem_cons.mp hp with h1 | h2
      · rw [h1]; simpa using hacc
      · exact ih [] (by simp) part h2
    · simp only [splitLinesChars, if_neg hc] at hp
      refine ih (c :: acc) ?_ part hp
      intro hx
      rcases List.mem_cons.mp hx with h1 | h2
      · exact hc h1.symm
      · exact hacc h2

theorem stripCR_subset (cs : List Char) : ∀ x ∈ stripTrailingCR cs, x ∈ cs := by
  intro x hx
  unfold stripTrailingCR at hx
  by_cases h : cs.getLast? = some '\r'
  · rw [if_pos h] at hx
    exact (List.dropLast_sublist cs).subset hx
  · rw [if_neg h] at hx
    exact hx

/-- The rewrite always produces a well-formed file: written lines are the
newline-split segments of the records, so none contains a newline. -/
theorem wellFormed_write (events : List Event) :
    wellFormedFile (write_all_events events) := by
  intro l hl
  unfold write_all_events at hl
  rcases List.mem_flatMap.mp hl with ⟨e, _, hle⟩
  unfold recordLines at hle
  rcases List.mem_map.mp hle with ⟨cs, hcs, hmk⟩
  intro hx
  rw [← hmk] at hx
  have hx2 : '\n' ∈ cs := stripCR_subset cs _ hx
  exact splitLinesChars_no_nl _ [] (by simp) cs hcs hx2

-- ### Retry loop of Lesson 14-4 (`retry_with_exponential_backoff`)

/-- The `loop` body of `retry_with_exponential_backoff` (lines 46-67 of
`main.rs` of Lesson 14-4): `current` is the value of `current_attempt`
before the `current_attempt += 1` at the top of the loop.  Returns the
final outcome together with the number of times `operation` was invoked
from this iteration on.  On `Err`, the loop returns the exhaustion error
when `current_attempt >= max_retries`; otherwise it computes the backoff
delay and then `jitter = gen_range(0..base_delay_ms / 2)`, which PANICS
when the range is empty (`base_delay_ms / 2 == 0`), aborting the program:
outcome `none`.  When the jitter range is nonempty it sleeps (the slept
duration is the `nextTotalDelay` value; it affects neither the outcome nor
the attempt count) and retries. -/
def retryGo (op : Nat → Except String String)
    (maxRetries baseDelayMs current : Nat) :
    Option (Except String String) × Nat :=
  match op (current + 1) with
  | Except.ok r => (some (Except.ok r), 1)
  | Except.error e =>
    if _h : maxRetries ≤ current + 1 then
      (some (Except.error ("Max retries reached. Last error: " ++ e)), 1)
    else if baseDelayMs / 2 = 0 then
      (none, 1)
    else
      ((retryGo op maxRetries baseDelayMs (current + 1)).1,
       (retryGo op maxRetries baseDelayMs (current + 1)).2 + 1)
termination_by maxRetries - current
decreasing_by omega

/-- The function `retry_with_exponential_backoff(max_retries, base_delay_ms, operation)`:
the loop starts with `current_attempt = 0`.  Outcome `some r` is the value
the function returns; outcome `none` means the program panicked inside
`gen_range` during a backoff wait. -/
def retry_with_exponential_backoff (maxRetries baseDelayMs : Nat)
    (op : Nat → Except String String) : Option (Except String String) × Nat :=
  retryGo op maxRetries baseDelayMs 0

/-- The `u64` wrap-around modulus. -/
def u64Mod : Nat := 2 ^ 64

/-- The backoff delay computation of lines 59-61:
`delay = base_delay_ms * 2u64.pow(current_attempt - 1)`,
`jitter = rand::thread_rng().gen_range(0..base_delay_ms / 2)`,
`total_delay = delay + jitter`, with the drawn jitter passed in as a
parameter.  `gen_range` panics when the range `0..base_delay_ms / 2`
is empty, i.e. when `base_delay_ms / 2 == 0`: modelled as `none`.
The `u64` multiplications and additions wrap modulo `2^64`
(release-profile overflow semantics). -/
def nextTotalDelay (baseDelayMs attempt jitter : Nat) : Option Nat :=
  if baseDelayMs / 2 = 0 then none
  else some ((baseDelayMs * (2 ^ (attempt - 1) % u64Mod) % u64Mod + jitter) % u64Mod)

theorem retryGo_count_pos (op : Nat → Except String String)
    (maxRetries baseDelayMs current : Nat) :
    1 ≤ (retryGo op maxRetries baseDelayMs current).2 := by
  rw [retryGo]
  cases op (current + 1) with
  | ok r => simp
  | error e =>
    by_cases h : maxRetries ≤ current + 1
    · simp [h]
    · by_cases hb : baseDelayMs / 2 = 0
      · simp [h, hb]
      · simp [h, hb]

/-- When every invocation fails and the jitter range is nonempty, the loop
starting at `current < maxRetries` makes exactly `maxRetries - current`
further invocations and ends in the exhaustion error. -/
theorem retryGo_all_fail (op : Nat → Except String String)
    (maxRetries baseDelayMs : Nat) (hbase : 2 ≤ baseDelayMs)
    (hfail : ∀ n, ∃ e, op n = Except.error e) :
    ∀ d current, maxRetries - current ≤ d → current < maxRetries →
      (retryGo op maxRetries baseDelayMs current).2 = maxRetries - current ∧
      ∃ e, (retryGo op maxRetries baseDelayMs current).1 =
        some (Except.error ("Max retries reached. Last error: " ++ e)) := by
  intro d
  induction d with
  | zero => intro current hle hlt; omega
  | succ d ih =>
    intro current hle hlt
    obtain ⟨e, he⟩ := hfail (current + 1)
    have hb : ¬ baseDelayMs / 2 = 0 := by omega
    rw [retryGo, he]
    by_cases h : maxRetries ≤ current + 1
    · simp only [h, dif_pos]
      constructor
      · show 1 = maxRetries - current
        omega
      · exact ⟨e, rfl⟩
    · simp only [h, dif_neg, not_false_iff, hb, if_neg]
      have hnext := ih (current + 1) (by omega) (by omega)
      constructor
      · show (retryGo op maxRetries baseDelayMs (current + 1)).2 + 1 =
          maxRetries - current
        rw [hnext.1]
        omega
      · exact hnext.2

theorem nextTotalDelay_eq (base attempt jitter : Nat) (hbase : 2 ≤ base)
    (hov : base * 2 ^ (attempt - 1) + jitter < 2 ^ 64) :
    nextTotalDelay base attempt jitter = some (base * 2 ^ (attempt - 1) + jitter) := by
  have hb2 : ¬ base / 2 = 0 := by omega
  have hpow : 2 ^ (attempt - 1) < 2 ^ 64 := by
    have h1 : 2 ^ (attempt - 1) ≤ base * 2 ^ (attempt - 1) :=
      Nat.le_mul_of_pos_left _ (by omega)
    omega
  have hmul : base * 2 ^ (attempt - 1) < 2 ^ 64 := by omega
  unfold nextTotalDelay u64Mod
  rw [if_neg hb2, Nat.mod_eq_of_lt hpow, Nat.mod_eq_of_lt hmul,
    Nat.mod_eq_of_lt hov]

-- ### Relay Engine (permanent/transient routing), modelled from the spec

/-- Modelled from the spec: the `SinkError` taxonomy of section 7
(`Transient` triggers the Retry Policy, `Permanent` bypasses retry).  No
implementation of this taxonomy exists in the repository; the sinks of the lessons
return a single undifferentiated error type. -/
inductive SinkError where
  | transient
  | permanent
  deriving DecidableEq, Repr

/-- Modelled from the spec: the three-state event status of section 3.
(The Lesson 14-2 store only realizes Pending/Processed via its `processed`
boolean; `failed` exists only in the data model of the spec.) -/
inductive EventStatus where
  | pending
  | processed
  | failed
  deriving DecidableEq, Repr

/-- Modelled from the spec: the Relay Engine state machine of section 4.5
for a single event.  `sink n` is the outcome of the n-th delivery attempt.
On success: mark processed.  On permanent failure: mark failed immediately.
On transient failure: retry iff `should_retry(attempt, max_attempts)`,
i.e. iff `attempt < max_attempts` (section 4.4); otherwise retries are
exhausted and the event is marked failed.  Returns the final status and
the number of delivery attempts made. -/
def relayGo (sink : Nat → Except SinkError Unit) (maxAttempts current : Nat) :
    EventStatus × Nat :=
  match sink (current + 1) with
  | Except.ok _ => (EventStatus.processed, 1)
  | Except.error SinkError.permanent => (EventStatus.failed, 1)
  | Except.error SinkError.transient =>
    if _h : current + 1 < maxAttempts then
      ((relayGo sink maxAttempts (current + 1)).1,
       (relayGo sink maxAttempts (current + 1)).2 + 1)
    else (EventStatus.failed, 1)
termination_by maxAttempts - current
decreasing_by omega

/-- Modelled from the spec: relaying one event starts at attempt 1. -/
def relayEvent (sink : Nat → Except SinkError Unit) (maxAttempts : Nat) :
    EventStatus × Nat :=
  relayGo sink maxAttempts 0

-- ### Shutdown Coordinator, modelled from the spec

/-- A delivery task: the id of the event being delivered and how many
cooperative steps of work remain before the `deliver` call resolves. -/
structure Delivery where
  id : String
  stepsLeft : Nat
  deriving DecidableEq, Repr

/-- Modelled from the spec: the observable state of the relay process for
section 4.6 — queued (not-yet-started) delivery ids in order, the delivery
currently in flight (at most one), the ids whose terminal status update has
reached the Store, whether the shutdown signal has been observed, and
whether the process has exited. -/
structure RelayProcState where
  queued : List String
  inFlight : Option Delivery
  storeLog : List String
  signal : Bool
  exited : Bool
  deriving DecidableEq, Repr

/-- Modelled from the spec: the Shutdown Coordinator transition relation of
section 4.6.  A new delivery may start only while no shutdown signal has
been observed; an in-flight delivery runs to completion and its status
update reaches the store; the process may exit only after the signal with
no delivery in flight.  No rule forcibly aborts an in-flight delivery, and
no rule applies after exit. -/
inductive ShutdownStep : RelayProcState → RelayProcState → Prop where
  | start (s : RelayProcState) (eid : String) (rest : List String) (k : Nat)
      (hsig : s.signal = false) (hex : s.exited = false)
      (hfl : s.inFlight = none) (hq : s.queued = eid :: rest) :
      ShutdownStep s { s with queued := rest, inFlight := some (Delivery.mk eid k) }
  | progress (s : RelayProcState) (eid : String) (k : Nat)
      (hex : s.exited = false) (hfl : s.inFlight = some (Delivery.mk eid (k + 1))) :
      ShutdownStep s { s with inFlight := some (Delivery.mk eid k) }
  | complete (s : RelayProcState) (eid : String)
      (hex : s.exited = false) (hfl : s.inFlight = some (Delivery.mk eid 0)) :
      ShutdownStep s { s with inFlight := none, storeLog := s.storeLog ++ [eid] }
  | observe (s : RelayProcState) (hex : s.exited = false) :
      ShutdownStep s { s with signal := true }
  | exit (s : RelayProcState) (hex : s.exited = false)
      (hsig : s.signal = true) (hfl : s.inFlight = none) :
      ShutdownStep s { s with exited := true }

/-- The section 8 shutdown scenario of the spec, just after the signal has been
observed: one delivery (`d1`, with `k` steps of work left) in flight and two
deliveries (`q1`, `q2`) queued but not started. -/
def midShutdownState (d1 q1 q2 : String) (k : Nat) : RelayProcState :=
  { queued := [q1, q2], inFlight := some (Delivery.mk d1 k),
    storeLog := [], signal := true, exited := false }

-- ### Store state-change lemmas

/-- What one append really does to the parsed contents of a well-formed
file (which every file actually read is): the previously parsed events are
preserved verbatim, and the new record contributes whatever its own lines
parse to — one event when the record is storable, fewer or mangled events
otherwise.  Unconditional in the appended event. -/
theorem read_save (file : List String) (e : Event) (hwf : wellFormedFile file) :
    read_all_events (save_event file e) =
      read_all_events file ++
        read_all_events (recordLines (serializeEvent e)) := by
  have h1 : save_event file e =
      write_all_events (read_all_events file) ++
        recordLines (serializeEvent e) := by
    unfold save_event write_all_events
    rw [List.flatMap_append]
    simp
  rw [h1, read_all_append,
    read_write_roundtrip _ (read_all_storable file hwf)]

/-- Appending a storable event appends exactly that event to the parsed
contents. -/
theorem read_save_storable (file : List String) (e : Event)
    (hwf : wellFormedFile file) (h : storableEvent e = true) :
    read_all_events (save_event file e) = read_all_events file ++ [e] := by
  rw [read_save file e hwf, recordLines_storable e h]
  have h2 : read_all_events [serializeEvent e] = [e] := by
    simp [read_all_events, List.filterMap,
      parseLine_serializeEvent e (storable_clean e h)]
  rw [h2]

theorem markFirst_not_found (l : List Event) (eventId : String)
    (h : ∀ x ∈ l, x.id ≠ eventId) : markFirstProcessed l eventId = l := by
  induction l with
  | nil => rfl
  | cons e rest ih =>
    have he : e.id ≠ eventId := h e (List.mem_cons_self e rest)
    simp only [markFirstProcessed, if_neg he]
    rw [ih (fun x hx => h x (List.mem_cons_of_mem e hx))]

theorem markFirst_storable (l : List Event) (eventId : String)
    (h : ∀ x ∈ l, storableEvent x = true) :
    ∀ x ∈ markFirstProcessed l eventId, storableEvent x = true := by
  induction l with
  | nil => intro x hx; simp [markFirstProcessed] at hx
  | cons e rest ih =>
    intro x hx
    by_cases he : e.id = eventId
    · simp only [markFirstProcessed, if_pos he] at hx
      rcases List.mem_cons.mp hx with h1 | h2
      · have : storableEvent e = true := h e (List.mem_cons_self e rest)
        rw [h1]
        simpa [storableEvent, cleanEvent] using this
      · exact h x (List.mem_cons_of_mem e h2)
    · simp only [markFirstProcessed, if_neg he] at hx
      rcases List.mem_cons.mp hx with h1 | h2
      · rw [h1]; exact h e (List.mem_cons_self e rest)
      · exact ih (fun y hy => h y (List.mem_cons_of_mem e hy)) x h2

/-- The operation `mark_event_processed` on a well-formed file acts on the
parsed contents exactly as the first-match marking loop. -/
theorem read_mark (file : List String) (eventId : String)
    (hwf : wellFormedFile file) :
    read_all_events (mark_event_processed file eventId) =
      markFirstProcessed (read_all_events file) eventId := by
  unfold mark_event_processed
  exact read_write_roundtrip _
    (markFirst_storable _ eventId (read_all_storable file hwf))

/-- Pointwise effect of the marking loop: ids and payloads are untouched and
the processed flag never reverts. -/
theorem markFirst_pointwise (l : List Event) (eventId : String) :
    List.Forall₂
      (fun old nw => nw.id = old.id ∧ nw.payload = old.payload ∧
        (old.processed = true → nw.processed = true))
      l (markFirstProcessed l eventId) := by
  induction l with
  | nil => exact List.Forall₂.nil
  | cons e rest ih =>
    by_cases he : e.id = eventId
    · simp only [markFirstProcessed, if_pos he]
      exact List.Forall₂.cons (by simp) (List.forall₂_same.mpr (by simp))
    · simp only [markFirstProcessed, if_neg he]
      exact List.Forall₂.cons (by simp) ih

-- ### Claim theorems

/-- A delivery operation that fails with the same transient error on every
invocation (for the C1 counterexample and witness). -/
def alwaysFailingOp : Nat → Except String String :=
  fun _ => Except.error "boom"

/-- C1 counterexample: with `max_retries = 3` and `base_delay_ms = 1`, an
always-failing operation is attempted exactly once and the program then
panics inside `gen_range` (empty jitter range) instead of retrying — it is
not attempted 3 times and no retries-exhausted error is returned. -/
theorem retry_panics_on_tiny_base_delay :
    retry_with_exponential_backoff 3 1 alwaysFailingOp = (none, 1) ∧
    (retry_with_exponential_backoff 3 1 alwaysFailingOp).2 ≠ 3 := by
  have h : retry_with_exponential_backoff 3 1 alwaysFailingOp = (none, 1) := by
    unfold retry_with_exponential_backoff
    rw [retryGo]
    rfl
  exact ⟨h, by rw [h]; decide⟩

/-- C1 (amended): for every `max_attempts >= 1` and every base delay of at
least 2 ms (so that the jitter range `0..base/2` is never empty), an
operation failing with a transient error on every invocation is attempted
exactly `max_attempts` times, after which the loop returns the
retries-exhausted error, and a further retry is performed iff the current
attempt count is strictly below `max_attempts`.  (For base delays below
2 ms the loop instead panics in `gen_range` after the first failure that
would be retried.) -/
theorem retry_transient_exhausts_max_attempts
    (maxAttempts baseDelayMs : Nat) (op : Nat → Except String String)
    (hmax : 1 ≤ maxAttempts) (hbase : 2 ≤ baseDelayMs)
    (hfail : ∀ n, ∃ e, op n = Except.error e) :
    (retry_with_exponential_backoff maxAttempts baseDelayMs op).2 =
      maxAttempts ∧
    (∃ e, (retry_with_exponential_backoff maxAttempts baseDelayMs op).1 =
      some (Except.error ("Max retries reached. Last error: " ++ e))) ∧
    (∀ current e, op (current + 1) = Except.error e →
      (1 < (retryGo op maxAttempts baseDelayMs current).2 ↔
        current + 1 < maxAttempts)) := by
  have hall := retryGo_all_fail op maxAttempts baseDelayMs hbase hfail
    maxAttempts 0 (by omega) (by omega)
  have hb : ¬ baseDelayMs / 2 = 0 := by omega
  refine ⟨?_, ?_, ?_⟩
  · have h1 := hall.1
    unfold retry_with_exponential_backoff
    omega
  · exact hall.2
  · intro current e he
    rw [retryGo, he]
    by_cases h : maxAttempts ≤ current + 1
    · simp only [dif_pos h]
      constructor
      · intro h1
        have h2 : (1:Nat) < 1 := h1
        omega
      · intro hlt
        exact absurd hlt (by omega)
    · simp only [dif_neg h, if_neg hb]
      have hp := retryGo_count_pos op maxAttempts baseDelayMs (current + 1)
      constructor
      · intro _
        omega
      · intro _
        show 1 < (retryGo op maxAttempts baseDelayMs (current + 1)).2 + 1
        omega

/-- C1 witness: always-failing operation, `max_attempts = 3`,
`base_delay = 100`. -/
theorem retry_transient_exhausts_max_attempts_witness :
    1 ≤ 3 ∧ 2 ≤ 100 ∧
    ((retry_with_exponential_backoff 3 100 alwaysFailingOp).2 = 3 ∧
     (∃ e, (retry_with_exponential_backoff 3 100 alwaysFailingOp).1 =
       some (Except.error ("Max retries reached. Last error: " ++ e))) ∧
     (∀ current e,
       alwaysFailingOp (current + 1) = Except.error e →
       (1 < (retryGo alwaysFailingOp 3 100 current).2 ↔
         current + 1 < 3))) :=
  ⟨by decide, by decide,
   retry_transient_exhausts_max_attempts 3 100 alwaysFailingOp
     (by decide) (by decide) (fun n => ⟨"boom", rfl⟩)⟩

/-- C2 counterexample: with configured `base_delay_ms = 1` the jitter range
`0..(1/2)` is empty and `gen_range` panics, so at attempt 1 no backoff delay
is produced at all — refuting the claim for that configured base delay. -/
theorem backoff_delay_base_one_panics : nextTotalDelay 1 1 0 = none := by
  decide

/-- C2 (amended): for base delays of at least 2 ms and attempts whose
computed delay does not overflow `u64`, the delay is exactly
`base * 2^(attempt-1) + jitter` with the jitter drawn below `base / 2`;
in particular `base = 100` gives delays in [100,150), [200,250), [400,450)
for attempts 1, 2, 3. -/
theorem backoff_delay_formula (base attempt jitter : Nat)
    (hbase : 2 ≤ base) (_hjit : jitter < base / 2)
    (hov : base * 2 ^ (attempt - 1) + jitter < 2 ^ 64) :
    nextTotalDelay base attempt jitter =
      some (base * 2 ^ (attempt - 1) + jitter) ∧
    (∀ j, j < 50 →
      nextTotalDelay 100 1 j = some (100 + j) ∧
        100 ≤ 100 + j ∧ 100 + j < 150) ∧
    (∀ j, j < 50 →
      nextTotalDelay 100 2 j = some (200 + j) ∧
        200 ≤ 200 + j ∧ 200 + j < 250) ∧
    (∀ j, j < 50 →
      nextTotalDelay 100 3 j = some (400 + j) ∧
        400 ≤ 400 + j ∧ 400 + j < 450) := by
  refine ⟨nextTotalDelay_eq base attempt jitter hbase hov, ?_, ?_, ?_⟩
  · intro j hj
    have h := nextTotalDelay_eq 100 1 j (by norm_num) (by norm_num; omega)
    norm_num at h
    exact ⟨h, by omega, by omega⟩
  · intro j hj
    have h := nextTotalDelay_eq 100 2 j (by norm_num) (by norm_num; omega)
    norm_num at h
    exact ⟨h, by omega, by omega⟩
  · intro j hj
    have h := nextTotalDelay_eq 100 3 j (by norm_num) (by norm_num; omega)
    norm_num at h
    exact ⟨h, by omega, by omega⟩

/-- C2 witness: `base = 100`, attempt 1, jitter 0. -/
theorem backoff_delay_formula_witness :
    2 ≤ 100 ∧ 0 < 100 / 2 ∧ 100 * 2 ^ (1 - 1) + 0 < 2 ^ 64 ∧
    (nextTotalDelay 100 1 0 = some (100 * 2 ^ (1 - 1) + 0) ∧
     (∀ j, j < 50 →
       nextTotalDelay 100 1 j = some (100 + j) ∧
         100 ≤ 100 + j ∧ 100 + j < 150) ∧
     (∀ j, j < 50 →
       nextTotalDelay 100 2 j = some (200 + j) ∧
         200 ≤ 200 + j ∧ 200 + j < 250) ∧
     (∀ j, j < 50 →
       nextTotalDelay 100 3 j = some (400 + j) ∧
         400 ≤ 400 + j ∧ 400 + j < 450)) :=
  ⟨by norm_num, by norm_num, by norm_num,
   backoff_delay_formula 100 1 0 (by norm_num) (by norm_num) (by norm_num)⟩

/-- C3 counterexample: an event whose payload contains the delimiter does
not survive the round trip — the parsed payload is truncated at the
embedded delimiter. -/
theorem roundtrip_fails_on_pipe_payload :
    parseLine (serializeEvent (Event.mk "1" "a|b" false)) =
      some (Event.mk "1" "a" false) ∧
    Event.mk "1" "a" false ≠ Event.mk "1" "a|b" false := by
  exact ⟨rfl, by decide⟩

/-- C3 (amended): serializing an event whose id and payload are free of the
field delimiter and parsing the line back yields the identical
(id, payload, status) tuple. -/
theorem roundtrip_clean_event (e : Event)
    (hid : '|' ∉ e.id.data)
    (hpay : '|' ∉ e.payload.data) :
    parseLine (serializeEvent e) = some e :=
  parseLine_serializeEvent e (by simp [cleanEvent]; exact ⟨hid, hpay⟩)

/-- C3 witness: a delimiter-free event round-trips. -/
theorem roundtrip_clean_event_witness :
    '|' ∉ (Event.mk "1" "A" false).id.data ∧
    '|' ∉ (Event.mk "1" "A" false).payload.data ∧
    parseLine (serializeEvent (Event.mk "1" "A" false)) =
      some (Event.mk "1" "A" false) :=
  ⟨by decide, by decide,
   roundtrip_clean_event (Event.mk "1" "A" false) (by decide) (by decide)⟩

/-- C5: a permanent rejection on the first attempt ends the event in status
Failed after exactly 1 delivery attempt, bypassing the retry policy
(modelled from the spec — no permanent/transient distinction exists in the
code of the repository). -/
theorem relay_permanent_single_attempt
    (sink : Nat → Except SinkError Unit) (maxAttempts : Nat)
    (h : sink 1 = Except.error SinkError.permanent) :
    relayEvent sink maxAttempts = (EventStatus.failed, 1) := by
  have h0 : sink (0 + 1) = Except.error SinkError.permanent := h
  unfold relayEvent
  rw [relayGo, h0]

/-- C5 witness: a sink that permanently rejects, `max_attempts = 3`. -/
theorem relay_permanent_single_attempt_witness :
    ((fun _ => Except.error SinkError.permanent :
        Nat → Except SinkError Unit) 1 = Except.error SinkError.permanent) ∧
    relayEvent (fun _ => Except.error SinkError.permanent) 3 =
      (EventStatus.failed, 1) :=
  ⟨rfl, relay_permanent_single_attempt
    (fun _ => Except.error SinkError.permanent) 3 rfl⟩

/-- C4 counterexample: an appended event whose payload contains the
delimiter does not appear in the pending listing at all — the listing holds
a mangled event (payload truncated at the delimiter) instead.  Likewise an
appended event with a newline in its payload vanishes entirely: its record
spans two file lines, neither of which has three fields. -/
theorem append_listing_fails_on_pipe_payload :
    (Event.mk "1" "a|b" false ∉
      get_unprocessed_events (save_event [] (Event.mk "1" "a|b" false)) ∧
     get_unprocessed_events (save_event [] (Event.mk "1" "a|b" false)) =
      [Event.mk "1" "a" false]) ∧
    get_unprocessed_events (save_event [] (Event.mk "1" "a\nb" false)) =
      [] := by
  exact ⟨⟨by decide, rfl⟩, rfl⟩

/-- C4 (amended): appending a Pending event with delimiter-free and
newline-free fields and an id not already present, to a well-formed store
file, yields a pending listing equal to the previous pending listing with
the new event appended (original append order), and the new event appears
exactly once in it. -/
theorem append_then_pending_listing (file : List String) (e : Event)
    (hst : storableEvent e = true) (hpend : e.processed = false)
    (hfresh : ∀ x ∈ read_all_events file, x.id ≠ e.id)
    (hwf : wellFormedFile file) :
    get_unprocessed_events (save_event file e) =
      get_unprocessed_events file ++ [e] ∧
    (get_unprocessed_events (save_event file e)).filter
      (fun x => x.id == e.id) = [e] := by
  have hr := read_save_storable file e hwf hst
  have h1 : get_unprocessed_events (save_event file e) =
      get_unprocessed_events file ++ [e] := by
    unfold get_unprocessed_events
    rw [hr, List.filter_append]
    simp [hpend]
  refine ⟨h1, ?_⟩
  rw [h1, List.filter_append]
  have h2 : (get_unprocessed_events file).filter
      (fun x => x.id == e.id) = [] := by
    rw [List.filter_eq_nil_iff]
    intro x hx
    have hx2 : x ∈ read_all_events file := List.mem_of_mem_filter hx
    simp [hfresh x hx2]
  rw [h2]
  simp

/-- C4 witness: appending one Pending event to the empty store. -/
theorem append_then_pending_listing_witness :
    storableEvent (Event.mk "1" "A" false) = true ∧
    (Event.mk "1" "A" false).processed = false ∧
    (∀ x ∈ read_all_events [], x.id ≠ (Event.mk "1" "A" false).id) ∧
    wellFormedFile [] ∧
    (get_unprocessed_events (save_event [] (Event.mk "1" "A" false)) =
      get_unprocessed_events [] ++ [Event.mk "1" "A" false] ∧
     (get_unprocessed_events (save_event [] (Event.mk "1" "A" false))).filter
       (fun x => x.id == (Event.mk "1" "A" false).id) =
       [Event.mk "1" "A" false]) :=
  ⟨by decide, rfl, by decide, by unfold wellFormedFile; decide,
   append_then_pending_listing [] (Event.mk "1" "A" false)
     (by decide) rfl (by decide) (by unfold wellFormedFile; decide)⟩

/-- C6 counterexample: a record with exactly three fields and the unknown
status token "garbage" is NOT rejected — it parses, with the status
defaulted to unprocessed. -/
theorem unknown_status_token_accepted :
    parseLine "1|p|garbage" = some (Event.mk "1" "p" false) := by
  rfl

theorem parseLine_none_iff (line : String) :
    parseLine line = none ↔ (splitnThree line).length ≠ 3 := by
  unfold parseLine
  rcases splitnThree line with _ | ⟨a, _ | ⟨b, _ | ⟨c, _ | ⟨d, t⟩⟩⟩⟩ <;> simp

/-- C6 (amended): a record is rejected during the scan exactly when it does
not split into exactly three delimited fields (an unknown status token does
NOT cause rejection — it parses as unprocessed); every rejected record is
skipped while the rest of the scan proceeds; no count of skipped records is
surfaced (the scan returns only the parsed events). -/
theorem scan_skip_iff_field_count (line : String) (file rest : List String) :
    (parseLine line = none ↔ (splitnThree line).length ≠ 3) ∧
    (parseLine line = none →
      read_all_events (file ++ line :: rest) = read_all_events (file ++ rest)) := by
  refine ⟨parseLine_none_iff line, ?_⟩
  intro hnone
  unfold read_all_events
  rw [List.filterMap_append, List.filterMap_append]
  simp [List.filterMap_cons, hnone]

/-- C6 witness: a one-field corrupt record between two good records. -/
theorem scan_skip_iff_field_count_witness :
    parseLine "corrupt" = none ∧
    read_all_events (["1|A|false"] ++ "corrupt" :: ["2|B|true"]) =
      read_all_events (["1|A|false"] ++ ["2|B|true"]) :=
  ⟨by decide,
   (scan_skip_iff_field_count "corrupt" ["1|A|false"] ["2|B|true"]).2
     (by decide)⟩

/-- C7 counterexample: marking an id that is absent from the store succeeds
and returns the store unchanged — it does not fail with NotFound (the Rust
function has no NotFound error path and returns `Ok(())`). -/
theorem mark_absent_id_succeeds :
    mark_event_processed ["2|B|false"] "1" = ["2|B|false"] := by
  rfl

/-- C7 (amended): marking an id absent from a well-formed store file is a
silent no-op that reports success: the parsed store contents are
unchanged. -/
theorem mark_absent_id_noop (file : List String) (eventId : String)
    (habs : ∀ x ∈ read_all_events file, x.id ≠ eventId)
    (hwf : wellFormedFile file) :
    read_all_events (mark_event_processed file eventId) =
      read_all_events file := by
  rw [read_mark file eventId hwf, markFirst_not_found _ _ habs]

/-- C7 witness: marking id "1" on a store holding only id "2". -/
theorem mark_absent_id_noop_witness :
    (∀ x ∈ read_all_events ["2|B|false"], x.id ≠ "1") ∧
    wellFormedFile ["2|B|false"] ∧
    read_all_events (mark_event_processed ["2|B|false"] "1") =
      read_all_events ["2|B|false"] :=
  ⟨by decide, by unfold wellFormedFile; decide,
   mark_absent_id_noop ["2|B|false"] "1" (by decide)
     (by unfold wellFormedFile; decide)⟩

/-- C8 counterexample: appending the same event id twice yields TWO pending
entries with that id — the store does not deduplicate, so the same logical
event would be delivered twice. -/
theorem duplicate_append_two_pending :
    get_unprocessed_events
      (save_event (save_event [] (Event.mk "1" "A" false))
        (Event.mk "1" "A" false)) =
      [Event.mk "1" "A" false, Event.mk "1" "A" false] := by
  rfl

/-- C8 (amended): `save_event` never deduplicates: appending the same
storable Pending event twice to a well-formed store file appends two
copies of it to the pending listing. -/
theorem append_twice_no_dedup (file : List String) (e : Event)
    (hst : storableEvent e = true) (hpend : e.processed = false)
    (hwf : wellFormedFile file) :
    get_unprocessed_events (save_event (save_event file e) e) =
      get_unprocessed_events file ++ [e, e] := by
  have h1 := read_save_storable file e hwf hst
  have hwf2 : wellFormedFile (save_event file e) := wellFormed_write _
  have h2 := read_save_storable (save_event file e) e hwf2 hst
  unfold get_unprocessed_events
  rw [h2, h1, List.filter_append, List.filter_append]
  simp [hpend]

/-- C8 witness: the same event appended twice to the empty store. -/
theorem append_twice_no_dedup_witness :
    storableEvent (Event.mk "1" "A" false) = true ∧
    (Event.mk "1" "A" false).processed = false ∧
    wellFormedFile [] ∧
    get_unprocessed_events
      (save_event (save_event [] (Event.mk "1" "A" false))
        (Event.mk "1" "A" false)) =
      get_unprocessed_events [] ++
        [Event.mk "1" "A" false, Event.mk "1" "A" false] :=
  ⟨by decide, rfl, by unfold wellFormedFile; decide,
   append_twice_no_dedup [] (Event.mk "1" "A" false) (by decide) rfl
     (by unfold wellFormedFile; decide)⟩

/-- C9: both store mutations preserve per-event identity and status
monotonicity: `save_event` leaves every previously parsed event in place
unchanged (appending only), and `mark_event_processed` keeps the id and payload of
every event and never reverts a processed flag to unprocessed. -/
theorem store_ops_preserve_event_identity (file : List String) (e : Event)
    (eventId : String) (hwf : wellFormedFile file) :
    read_all_events (save_event file e) =
      read_all_events file ++
        read_all_events (recordLines (serializeEvent e)) ∧
    List.Forall₂
      (fun old nw => nw.id = old.id ∧ nw.payload = old.payload ∧
        (old.processed = true → nw.processed = true))
      (read_all_events file)
      (read_all_events (mark_event_processed file eventId)) :=
  ⟨read_save file e hwf,
   by rw [read_mark file eventId hwf]; exact markFirst_pointwise _ _⟩

/-- C9 witness: a two-record store, one append and one mark. -/
theorem store_ops_preserve_event_identity_witness :
    wellFormedFile ["1|A|false", "2|B|true"] ∧
    (read_all_events (save_event ["1|A|false", "2|B|true"] (Event.mk "3" "C" false)) =
      read_all_events ["1|A|false", "2|B|true"] ++
        read_all_events (recordLines (serializeEvent (Event.mk "3" "C" false))) ∧
     List.Forall₂
      (fun old nw => nw.id = old.id ∧ nw.payload = old.payload ∧
        (old.processed = true → nw.processed = true))
      (read_all_events ["1|A|false", "2|B|true"])
      (read_all_events (mark_event_processed ["1|A|false", "2|B|true"] "1"))) :=
  ⟨by unfold wellFormedFile; decide,
   store_ops_preserve_event_identity ["1|A|false", "2|B|true"]
     (Event.mk "3" "C" false) "1" (by unfold wellFormedFile; decide)⟩

-- ### C10: graceful-shutdown scenario

/-- The invariant holding at every state reachable from the mid-shutdown
scenario: the signal stays observed, the queued deliveries stay queued,
only the original in-flight delivery is ever in flight (with its store
update pending exactly while it is in flight), and an exited process has
no delivery in flight and the update recorded. -/
def ShutdownInv (d1 q1 q2 : String) (s : RelayProcState) : Prop :=
  s.signal = true ∧ s.queued = [q1, q2] ∧
  ((∃ k, s.inFlight = some (Delivery.mk d1 k)) ∧ s.storeLog = [] ∨
    s.inFlight = none ∧ s.storeLog = [d1]) ∧
  (s.exited = true → s.inFlight = none ∧ s.storeLog = [d1])

theorem shutdownInv_init (d1 q1 q2 : String) (k : Nat) :
    ShutdownInv d1 q1 q2 (midShutdownState d1 q1 q2 k) := by
  refine ⟨rfl, rfl, Or.inl ⟨⟨k, rfl⟩, rfl⟩, ?_⟩
  intro h
  simp [midShutdownState] at h

theorem shutdownInv_step (d1 q1 q2 : String) (s t : RelayProcState)
    (hinv : ShutdownInv d1 q1 q2 s) (hstep : ShutdownStep s t) :
    ShutdownInv d1 q1 q2 t := by
  obtain ⟨hsig, hq, hdisj, hex⟩ := hinv
  cases hstep with
  | start eid rest k hsig2 hex2 hfl hq2 =>
    rw [hsig] at hsig2
    exact absurd hsig2 (by simp)
  | progress eid k hex2 hfl =>
    rcases hdisj with ⟨⟨k0, hk0⟩, hlog⟩ | ⟨hnone, _⟩
    · rw [hfl] at hk0
      have heid : eid = d1 := by
        have := Option.some.inj hk0
        exact congrArg Delivery.id this
      refine ⟨hsig, hq, Or.inl ⟨⟨k, by simp [heid]⟩, hlog⟩, ?_⟩
      intro h
      simp only at h
      rw [h] at hex2
      exact absurd hex2 (by simp)
    · rw [hfl] at hnone
      exact absurd hnone (by simp)
  | complete eid hex2 hfl =>
    rcases hdisj with ⟨⟨k0, hk0⟩, hlog⟩ | ⟨hnone, _⟩
    · rw [hfl] at hk0
      have heid : eid = d1 := by
        have := Option.some.inj hk0
        exact congrArg Delivery.id this
      refine ⟨hsig, hq, Or.inr ⟨rfl, by simp [hlog, heid]⟩, ?_⟩
      intro _
      exact ⟨rfl, by simp [hlog, heid]⟩
    · rw [hfl] at hnone
      exact absurd hnone (by simp)
  | observe hex2 =>
    refine ⟨rfl, hq, hdisj, ?_⟩
    intro h
    simp only at h
    rw [h] at hex2
    exact absurd hex2 (by simp)
  | exit hex2 hsig2 hfl =>
    rcases hdisj with ⟨⟨k0, hk0⟩, _⟩ | ⟨hnone, hlog⟩
    · rw [hfl] at hk0
      exact absurd hk0 (by simp)
    · exact ⟨hsig, hq, Or.inr ⟨hnone, hlog⟩, fun _ => ⟨hnone, hlog⟩⟩

theorem shutdownInv_reachable (d1 q1 q2 : String) (k : Nat)
    (s : RelayProcState)
    (hreach : Relation.ReflTransGen ShutdownStep (midShutdownState d1 q1 q2 k) s) :
    ShutdownInv d1 q1 q2 s := by
  induction hreach with
  | refl => exact shutdownInv_init d1 q1 q2 k
  | tail hr hstep ih => exact shutdownInv_step d1 q1 q2 _ _ ih hstep

/-- C10: from the mid-shutdown scenario (signal observed, one delivery in
flight, two queued), in every reachable state the two queued deliveries are
never started, only the original delivery is ever in flight, whenever it is
no longer in flight its status update has reached the store, and the
process exits only after the in-flight delivery resolved and its update was
recorded (modelled from the spec — the shutdown lesson of the repository has no
delivery queue or store). -/
theorem shutdown_midflight_scenario (d1 q1 q2 : String) (k : Nat)
    (s : RelayProcState)
    (hreach : Relation.ReflTransGen ShutdownStep (midShutdownState d1 q1 q2 k) s) :
    s.queued = [q1, q2] ∧
    (∀ d, s.inFlight = some d → d.id = d1) ∧
    (s.inFlight = none → s.storeLog = [d1]) ∧
    (s.exited = true → s.inFlight = none ∧ s.storeLog = [d1]) := by
  obtain ⟨hsig, hq, hdisj, hex⟩ := shutdownInv_reachable d1 q1 q2 k s hreach
  refine ⟨hq, ?_, ?_, hex⟩
  · intro d hd
    rcases hdisj with ⟨⟨k0, hk0⟩, _⟩ | ⟨hnone, _⟩
    · rw [hd] at hk0
      have := Option.some.inj hk0
      rw [this]
    · rw [hd] at hnone
      exact absurd hnone (by simp)
  · intro hnone
    rcases hdisj with ⟨⟨k0, hk0⟩, _⟩ | ⟨_, hlog⟩
    · rw [hnone] at hk0
      exact absurd hk0 (by simp)
    · exact hlog

/-- The final state of the C10 witness trace: the in-flight delivery has
completed and its update reached the store, the queued deliveries were
never started, and the process has exited. -/
def shutdownFinalState : RelayProcState :=
  { queued := ["2", "3"], inFlight := none, storeLog := ["1"],
    signal := true, exited := true }

/-- C10 witness: the concrete trace complete-then-exit from the scenario
with the in-flight delivery one step from done. -/
theorem shutdown_midflight_scenario_witness :
    Relation.ReflTransGen ShutdownStep (midShutdownState "1" "2" "3" 0)
      shutdownFinalState ∧
    (shutdownFinalState.queued = ["2", "3"] ∧
     (∀ d, shutdownFinalState.inFlight = some d → d.id = "1") ∧
     (shutdownFinalState.inFlight = none → shutdownFinalState.storeLog = ["1"]) ∧
     (shutdownFinalState.exited = true →
       shutdownFinalState.inFlight = none ∧
       shutdownFinalState.storeLog = ["1"])) := by
  have h1 : ShutdownStep (midShutdownState "1" "2" "3" 0)
      { queued := ["2", "3"], inFlight := none, storeLog := ["1"],
        signal := true, exited := false } :=
    ShutdownStep.complete (midShutdownState "1" "2" "3" 0) "1" rfl rfl
  have h2 : ShutdownStep
      { queued := ["2", "3"], inFlight := none, storeLog := ["1"],
        signal := true, exited := false } shutdownFinalState :=
    ShutdownStep.exit _ rfl rfl rfl
  have htr : Relation.ReflTransGen ShutdownStep (midShutdownState "1" "2" "3" 0)
      shutdownFinalState :=
    Relation.ReflTransGen.tail (Relation.ReflTransGen.single h1) h2
  exact ⟨htr, shutdown_midflight_scenario "1" "2" "3" 0 shutdownFinalState htr⟩
